import Mathlib

/-!
# Clustr — verification of the captioning task pipeline and gallery frontend

This file embeds, in Lean 4, the parts of the Clustr repository that the
specification talks about:

* the asynchronous caption-task pipeline (task state machine, submit/status,
  caption-client retry policy) and the on-demand thumbnail cache.  The Python
  backend sources for these components are not part of the source tree we
  were given (only their READMEs and callers are), so those definitions are
  modelled from the specification text and are marked as such;
* the React frontend hooks and services (`useImageUpload.uploadFiles`,
  `useGallery.fetchImages`, `galleryService.getUploads`), which are embedded
  directly from the TypeScript sources.

All definitions are executable; theorems at the end settle the individual
specification claims.
-/

namespace Clustr

/-! ## Task orchestrator data model -/

/-- Modelled from the spec: per-item outcome of a caption task
(`pending`, `success` with caption, `error` with message); the backend
`caption_service` that maintains these is missing from the source tree. -/
inductive ItemOutcome
  | pending
  | success (caption : String)
  | error (msg : String)
deriving DecidableEq, Repr

/-- An item outcome is terminal when it is `success` or `error`. -/
def ItemOutcome.isTerminal : ItemOutcome → Bool
  | .pending => false
  | .success _ => true
  | .error _ => true

/-- Whether an item outcome is a success. -/
def ItemOutcome.isSuccess : ItemOutcome → Bool
  | .success _ => true
  | _ => false

/-- Modelled from the spec: overall status of a caption task. -/
inductive TaskStatus
  | queued
  | inProgress
  | completed
  | failed
deriving DecidableEq, Repr

/-- A task status is terminal when it is `completed` or `failed`. -/
def TaskStatus.isTerminal : TaskStatus → Bool
  | .completed => true
  | .failed => true
  | _ => false

/-- Numeric position of a status along
`queued → in_progress → {completed | failed}`. -/
def statusRank : TaskStatus → Nat
  | .queued => 0
  | .inProgress => 1
  | .completed => 2
  | .failed => 2

/-- Modelled from the spec: the aggregation rule of §3 — a task with all item
outcomes terminal is `completed` when at least one succeeded and `failed`
otherwise; a task with a non-terminal item is `in_progress`. -/
def overallOf (items : List ItemOutcome) : TaskStatus :=
  if items.all ItemOutcome.isTerminal then
    if items.any ItemOutcome.isSuccess then .completed else .failed
  else .inProgress

/-- Modelled from the spec: a caption-task record — item outcomes, overall
status and the completion timestamp that is set once terminal. -/
structure TaskState where
  items : List ItemOutcome
  status : TaskStatus
  completedAt : Option Nat
deriving DecidableEq, Repr

/-- Modelled from the spec: the task record created on batch submission —
every item `pending`, overall status `queued`, no completion timestamp. -/
def initTask (n : Nat) : TaskState :=
  { items := List.replicate n .pending, status := .queued, completedAt := none }

/-- Modelled from the spec: a worker finishing item `i` with terminal outcome
`r` at time `now` — it writes the outcome into the per-item map, recomputes
the aggregate status, and sets the completion timestamp when the task just
became terminal. -/
def finishItem (s : TaskState) (i : Nat) (r : ItemOutcome) (now : Nat) : TaskState :=
  let items' := s.items.set i r
  let status' := overallOf items'
  { items := items'
    status := status'
    completedAt := if status'.isTerminal then some now else s.completedAt }

/-- Modelled from the spec: the transitions a task record can undergo — the
scheduler starting a queued task, and a worker finishing a pending item of a
started task with a terminal outcome. -/
inductive TaskStep : TaskState → TaskState → Prop
  | start (s : TaskState) (h : s.status = .queued) :
      TaskStep s { s with status := .inProgress }
  | finish (s : TaskState) (i : Nat) (r : ItemOutcome) (now : Nat)
      (hs : s.status = .inProgress)
      (hi : s.items.get? i = some .pending)
      (hr : r.isTerminal = true) :
      TaskStep s (finishItem s i r now)

/-- Reflexive-transitive closure of `TaskStep`: the states a task record can
reach from a given state. -/
inductive TaskReach : TaskState → TaskState → Prop
  | refl (s : TaskState) : TaskReach s s
  | tail {s t u : TaskState} : TaskReach s t → TaskStep t u → TaskReach s u

/-- The §3 aggregate-status invariant of a task record: `completed` exactly
when every item outcome is terminal and one succeeded, `failed` exactly when
every item outcome is terminal and none succeeded, and a started task with a
non-terminal item is `in_progress`. -/
def TaskInv (s : TaskState) : Prop :=
  (s.status = .completed ↔
     s.items.all ItemOutcome.isTerminal = true ∧
     s.items.any ItemOutcome.isSuccess = true) ∧
  (s.status = .failed ↔
     s.items.all ItemOutcome.isTerminal = true ∧
     s.items.any ItemOutcome.isSuccess = false) ∧
  (s.status ≠ .queued → s.items.all ItemOutcome.isTerminal = false →
     s.status = .inProgress)

/-! ## Thumbnail scaling -/

/-- Modelled from the spec: §4.4 — scale the source so the larger dimension
equals `maxDim` while preserving aspect ratio (the backend `create_thumbnail`
is missing from the source tree).  Computed with rational scale
`maxDim / max w h` and truncation to whole pixels. -/
def thumbDims (w h maxDim : Nat) : Nat × Nat :=
  (w * maxDim / max w h, h * maxDim / max w h)

/-! ## Orchestrator public contract: submit / status -/

/-- An image identifier handed out by the artifact stager. -/
abbrev ImageId := String

/-- Modelled from the spec: the task registry held by the metadata store;
a task id is an index into it. -/
structure Registry where
  tasks : List TaskState
deriving DecidableEq, Repr

/-- Modelled from the spec: the errors of the orchestrator's public
contract — `EmptyBatchError` from `submit`, `NotFoundError` from `status`. -/
inductive OrchError
  | emptyBatch
  | notFound
deriving DecidableEq, Repr

/-- Modelled from the spec: `submit(batch)` — reject an empty batch with
`EmptyBatchError` (no task id issued), otherwise atomically create the
queued task record and return its fresh task id. -/
def submit (batch : List ImageId) (reg : Registry) :
    Except OrchError (Nat × Registry) :=
  if batch.isEmpty then .error .emptyBatch
  else .ok (reg.tasks.length, ⟨reg.tasks ++ [initTask batch.length]⟩)

/-- Modelled from the spec: `status(taskId)` — the current snapshot of the
task record, or `NotFoundError` for an unknown id. -/
def statusQuery (reg : Registry) (tid : Nat) : Except OrchError TaskState :=
  match reg.tasks.get? tid with
  | some s => .ok s
  | none => .error .notFound

/-! ## Caption client retry policy -/

/-- Modelled from the spec: the four failure kinds of the Caption Client. -/
inductive CaptionError
  | unreachable
  | timeout
  | invalidResponse
  | modelError
deriving DecidableEq, Repr

/-- Transient failures — the only ones the retry policy may retry. -/
def CaptionError.isTransient : CaptionError → Bool
  | .unreachable => true
  | .timeout => true
  | .invalidResponse => false
  | .modelError => false

/-- A successful caption result. -/
structure CaptionResult where
  caption : String
  tags : List String
deriving DecidableEq, Repr

/-- Modelled from the spec: the retry loop of the Caption Client.
`oracle k` is the outcome of the `k`-th attempt against the external model;
`retries` is the number of further attempts still allowed after the current
one.  A failed attempt is retried only when the failure is transient and
budget remains. -/
def captionRetry (oracle : Nat → Except CaptionError CaptionResult) :
    Nat → Nat → Except CaptionError CaptionResult
  | k, 0 =>
    (match oracle k with
     | .ok v => .ok v
     | .error e => .error e)
  | k, r + 1 =>
    match oracle k with
    | .ok v => .ok v
    | .error e => if e.isTransient then captionRetry oracle (k + 1) r else .error e

/-- Number of attempts the retry loop performs, under the same arguments as
`captionRetry`. -/
def captionAttempts (oracle : Nat → Except CaptionError CaptionResult) :
    Nat → Nat → Nat
  | _, 0 => 1
  | k, r + 1 =>
    match oracle k with
    | .ok _ => 1
    | .error e => if e.isTransient then 1 + captionAttempts oracle (k + 1) r else 1

/-- Modelled from the spec: `caption` with a total attempt budget (a
configuration constant, at least 1): the first attempt plus up to
`budget - 1` retries. -/
def caption (budget : Nat) (oracle : Nat → Except CaptionError CaptionResult) :
    Except CaptionError CaptionResult :=
  captionRetry oracle 0 (budget - 1)

/-- Error message recorded for a per-item failure. -/
def captionErrMsg : CaptionError → String
  | .unreachable => "model unreachable"
  | .timeout => "model timeout"
  | .invalidResponse => "invalid model response"
  | .modelError => "model error"

/-- Modelled from the spec: how the orchestrator turns the caption client's
answer into a per-item outcome — success records the caption, any failure
becomes a per-item `error` outcome (never a process-fatal condition). -/
def processItem (r : Except CaptionError CaptionResult) : ItemOutcome :=
  match r with
  | .ok v => .success v.caption
  | .error e => .error (captionErrMsg e)

/-! ## Thumbnail cache single-flight model -/

/-- Observable phase of one concurrent `get(imageId, maxDim)` caller for a
fixed key: not yet served, holding the generation lock, or finished with the
returned bytes. -/
inductive CallerPhase
  | start
  | generating
  | done (bytes : List Nat)
deriving DecidableEq, Repr

/-- Whether a caller has received its bytes. -/
def CallerPhase.isDone : CallerPhase → Bool
  | .done _ => true
  | _ => false

/-- Modelled from the spec: the state of the thumbnail cache for one key
(imageId, maxDim) together with the callers concurrently requesting it —
the cached entry, the per-key generation lock, and a counter of performed
decode+resize+encode computations. -/
structure CacheSys where
  callers : List CallerPhase
  entry : Option (List Nat)
  lockHeld : Bool
  genCount : Nat
deriving DecidableEq, Repr

/-- Initial state for `K` concurrent callers of a previously-uncached key. -/
def initCache (K : Nat) : CacheSys :=
  { callers := List.replicate K .start, entry := none, lockHeld := false, genCount := 0 }

/-- Modelled from the spec: §4.4's algorithm as an interleaving of caller
steps for one key (`compute` is the deterministic decode+resize+encode
result for that key): a caller that finds the entry cached returns it; on a
miss it acquires the free per-key lock; the lock holder performs the one
computation, stores the entry, releases the lock and returns. -/
inductive CacheStep (compute : List Nat) : CacheSys → CacheSys → Prop
  | hit (s : CacheSys) (i : Nat) (b : List Nat)
      (hc : s.callers.get? i = some .start)
      (he : s.entry = some b) :
      CacheStep compute s { s with callers := s.callers.set i (.done b) }
  | acquire (s : CacheSys) (i : Nat)
      (hc : s.callers.get? i = some .start)
      (he : s.entry = none)
      (hl : s.lockHeld = false) :
      CacheStep compute s
        { s with callers := s.callers.set i .generating, lockHeld := true }
  | generate (s : CacheSys) (i : Nat)
      (hc : s.callers.get? i = some .generating) :
      CacheStep compute s
        { s with callers := s.callers.set i (.done compute)
                 entry := some compute
                 lockHeld := false
                 genCount := s.genCount + 1 }

/-- Reflexive-transitive closure of `CacheStep`. -/
inductive CacheReach (compute : List Nat) : CacheSys → CacheSys → Prop
  | refl (s : CacheSys) : CacheReach compute s s
  | tail {s t u : CacheSys} :
      CacheReach compute s t → CacheStep compute t u → CacheReach compute s u

/-- Invariant of the single-flight cache for one key: a populated entry holds
the one computed value and records exactly one performed computation, an
unpopulated entry means none was performed yet, a generating caller holds the
lock over an unpopulated entry, at most one caller is generating, and every
served caller received the computed value from the populated entry. -/
def CacheInv (compute : List Nat) (s : CacheSys) : Prop :=
  (∀ b, s.entry = some b → b = compute ∧ s.genCount = 1) ∧
  (s.entry = none → s.genCount = 0) ∧
  (∀ i, s.callers.get? i = some .generating →
     s.lockHeld = true ∧ s.entry = none) ∧
  (∀ i j, s.callers.get? i = some .generating →
     s.callers.get? j = some .generating → i = j) ∧
  (∀ i b, s.callers.get? i = some (.done b) →
     b = compute ∧ s.entry = some compute)

/-! ## Frontend: `useImageUpload.uploadFiles`
(src/frontend — `hooks/useImageUpload.ts`) -/

/-- Status of a client-side file, from `types/index.ts` (`UploadableFile`). -/
inductive FileStatus
  | pending
  | uploading
  | success
  | error
deriving DecidableEq, Repr

/-- `UploadableFile` from `types/index.ts`; `name` stands for the browser
`File` blob, of which only the identity matters here. -/
structure UploadableFile where
  id : String
  name : String
  previewUrl : String
  progress : Nat
  status : FileStatus
  error : Option String
  uploadedPath : Option String
deriving DecidableEq, Repr

/-- One element of `UploadResponse.data`, from `uploadService.ts`. -/
structure UploadedInfo where
  stored_filename : String
  preview_url : String
  original_filename : String
  file_size : Nat
deriving DecidableEq, Repr

/-- `UploadResponse` from `uploadService.ts`; `data = none` models a
response whose `data` field is missing or not an array. -/
structure UploadResponse where
  message : String
  data : Option (List UploadedInfo)
deriving DecidableEq, Repr

/-- `updatedFiles[fileIndex] = { ...updatedFiles[fileIndex],
status: "uploading", progress: 0 }` from `uploadFiles`. -/
def markUploading (f : UploadableFile) : UploadableFile :=
  { f with status := .uploading, progress := 0 }

/-- The `try`/`catch` body of one loop iteration of `uploadFiles`: a thrown
upload error marks the file `error` with the message; a response whose
`data` is missing, not an array, or empty is treated the same with the fixed
message; otherwise the file becomes `success` with `uploadedPath` taken from
`response.data[0].preview_url`. -/
def applyOutcome (r : Except String UploadResponse) (f : UploadableFile) :
    UploadableFile :=
  match r with
  | .error msg => { f with status := .error, progress := 0, error := some msg }
  | .ok resp =>
    match resp.data with
    | some (info :: _) =>
      { f with status := .success, progress := 100,
               uploadedPath := some info.preview_url }
    | _ =>
      { f with status := .error, progress := 0,
               error := some "Invalid response from upload service" }

/-- `updatedFiles.findIndex((f) => f.id === fileData.id)`, with `none` for
the `-1` case. -/
def findIdxById (fid : String) : List UploadableFile → Option Nat
  | [] => none
  | f :: fs =>
    if f.id = fid then some 0 else (findIdxById fid fs).map (· + 1)

/-- In-place update of a list element, as the JavaScript
`updatedFiles[fileIndex] = ...` assignment. -/
def modifyAt : List α → Nat → (α → α) → List α
  | [], _, _ => []
  | a :: as, 0, g => g a :: as
  | a :: as, n + 1, g => a :: modifyAt as n g

/-- The `for (const fileData of pendingFiles)` loop of `uploadFiles`:
for each pending file, find its index in `updatedFiles` by id (`continue`
when absent), mark it uploading, and overwrite it with the outcome of the
`k`-th upload call. -/
def uploadLoop (oracle : Nat → Except String UploadResponse) :
    Nat → List UploadableFile → List UploadableFile → List UploadableFile
  | _, [], updated => updated
  | k, p :: rest, updated =>
    match findIdxById p.id updated with
    | none => uploadLoop oracle (k + 1) rest updated
    | some i =>
      uploadLoop oracle (k + 1) rest
        (modifyAt updated i (fun f => applyOutcome (oracle k) (markUploading f)))

/-- `uploadFiles` from `hooks/useImageUpload.ts`: return the input unchanged
when no file is pending, otherwise run the upload loop over the pending
files on a copy of the input list.  `oracle k` is the result of the `k`-th
`uploadService.uploadSingleImage` call. -/
def uploadFiles (oracle : Nat → Except String UploadResponse)
    (files : List UploadableFile) : List UploadableFile :=
  let pendingFiles := files.filter (fun f => decide (f.status = .pending))
  if pendingFiles.length = 0 then files
  else uploadLoop oracle 0 pendingFiles files

/-- Count of pending files strictly before position `i` — the index of the
upload call that serves the pending file at position `i`. -/
def pendingBefore (files : List UploadableFile) (i : Nat) : Nat :=
  ((files.take i).filter (fun f => decide (f.status = .pending))).length

/-- Positional recursion equivalent to `uploadFiles` on id-distinct inputs
(proved below): transform each pending file in place with the next upload
outcome, leave every other file untouched. -/
def uploadSpecFun (oracle : Nat → Except String UploadResponse) :
    Nat → List UploadableFile → List UploadableFile
  | _, [] => []
  | k, f :: fs =>
    if f.status = .pending
    then applyOutcome (oracle k) (markUploading f) :: uploadSpecFun oracle (k + 1) fs
    else f :: uploadSpecFun oracle k fs

/-- An upload service whose every call fails. -/
def oracleErr : Nat → Except String UploadResponse :=
  fun _ => .error "network down"

/-- An upload service whose every call succeeds with one uploaded entry. -/
def oracleOkW : Nat → Except String UploadResponse :=
  fun _ => .ok ⟨"stored", some [⟨"s.jpg", "/uploads/s.jpg", "o.jpg", 1⟩]⟩

/-- A file already in status `uploading` when `uploadFiles` is called. -/
def fileU : UploadableFile := ⟨"u1", "nu", "pu", 0, .uploading, none, none⟩

/-- A pending file with id `x`. -/
def fileA : UploadableFile := ⟨"x", "na", "pa", 0, .pending, none, none⟩

/-- A second pending file with the same id `x`. -/
def fileB : UploadableFile := ⟨"x", "nb", "pb", 0, .pending, none, none⟩

/-- A pending file with a fresh id. -/
def fileW : UploadableFile := ⟨"w1", "nw", "pw", 0, .pending, none, none⟩

/-! ## Frontend: `galleryService.getUploads` and `useGallery.fetchImages` -/

/-- `ImageMetadata` from `galleryService.ts`. -/
structure ImageMetadata where
  id : String
  original_name : String
  filename : String
  file_path : String
  url : String
  thumbnail_url : Option String
  upload_time : String
  size : Nat
  dimensions : Option (Nat × Nat)
  status : String
  caption : Option String
  tags : Option (List String)
deriving DecidableEq, Repr

/-- `GetUploadsResponse` from `galleryService.ts`. -/
structure GetUploadsResponse where
  data : List ImageMetadata
  total : Nat
  page : Nat
  limit : Nat
deriving DecidableEq, Repr

/-- `galleryService.getUploads` from `galleryService.ts`: given the server's
paginated response, overwrite each image's `thumbnail_url` with the fixed
size-300 thumbnail endpoint and pass everything else through.  `page` and
`limit` are the caller's arguments (sent to the server, unused here). -/
def getUploads (baseURL : String) (page limit : Nat)
    (resp : GetUploadsResponse) : GetUploadsResponse :=
  { resp with
    data := resp.data.map fun image =>
      let turl := baseURL ++ "/api/uploads/" ++ image.id ++ "/thumbnail?size=300"
      { image with thumbnail_url := some turl } }

/-- The `setImages` updater inside `fetchImages` of `hooks/useGallery.ts`:
append to the previous images those images of the response whose id is not
already present. -/
def galleryUpdate (prevImages : List ImageMetadata)
    (respData : List ImageMetadata) : List ImageMetadata :=
  let existingIds := prevImages.map fun img => img.id
  prevImages ++ respData.filter fun img => decide (¬ img.id ∈ existingIds)

/-- The `images` state after a sequence of successful fetches, starting from
the empty gallery. -/
def galleryRun (resps : List (List ImageMetadata)) : List ImageMetadata :=
  resps.foldl galleryUpdate []

/-! ## Concrete records used by witnesses and counterexamples -/

/-- An image record whose id recurs inside a single fetch response. -/
def imgDup : ImageMetadata :=
  ⟨"dup", "n", "f", "p", "u", none, "t", 0, none, "pending", none, none⟩

/-- A first distinct image record. -/
def imgA : ImageMetadata :=
  ⟨"idA", "a", "fa", "pa", "ua", none, "ta", 1, none, "pending", none, none⟩

/-- A second distinct image record. -/
def imgB : ImageMetadata :=
  ⟨"idB", "b", "fb", "pb", "ub", none, "tb", 2, none, "pending", none, none⟩

/-- An attempt oracle whose first attempt times out and whose later attempts
succeed. -/
def oracleTransientOnce : Nat → Except CaptionError CaptionResult :=
  fun k => if k = 0 then .error .timeout else .ok ⟨"a cat", ["cat"]⟩

/-! ## C7: thumbnail geometry -/

/-- C7: for every successfully generated thumbnail, the larger output
dimension equals the requested `maxDim` exactly (hence within 1px), both
output dimensions are bounded by `maxDim`, and the output aspect ratio
matches the source's within truncation tolerance: the cross products
`h * outW` and `w * outH` differ by less than `max w h`. -/
theorem thumbnail_dims_spec (w h maxDim : Nat)
    (hw : 0 < w) (hh : 0 < h) (hm : 0 < maxDim) :
    max (thumbDims w h maxDim).1 (thumbDims w h maxDim).2 = maxDim ∧
    (thumbDims w h maxDim).1 ≤ maxDim ∧
    (thumbDims w h maxDim).2 ≤ maxDim ∧
    h * (thumbDims w h maxDim).1 < w * (thumbDims w h maxDim).2 + max w h ∧
    w * (thumbDims w h maxDim).2 < h * (thumbDims w h maxDim).1 + max w h := by
  rcases Nat.le_total h w with hle | hle
  · have hmax : max w h = w := max_eq_left hle
    have htw : w * maxDim / w = maxDim := Nat.mul_div_cancel_left maxDim hw
    have hdm : w * (h * maxDim / w) + h * maxDim % w = h * maxDim :=
      Nat.div_add_mod (h * maxDim) w
    have hmod : h * maxDim % w < w := Nat.mod_lt _ hw
    have hth : h * maxDim / w ≤ maxDim := by
      have h1 : h * maxDim ≤ w * maxDim := mul_le_mul_right' hle maxDim
      have h2 : h * maxDim / w ≤ w * maxDim / w := Nat.div_le_div_right h1
      rw [htw] at h2
      exact h2
    simp only [thumbDims, hmax]
    refine ⟨?_, ?_, ?_, ?_, ?_⟩
    · rw [htw]; exact max_eq_left hth
    · rw [htw]
    · exact hth
    · rw [htw]
      calc h * maxDim = w * (h * maxDim / w) + h * maxDim % w := hdm.symm
        _ < w * (h * maxDim / w) + w := Nat.add_lt_add_left hmod _
    · rw [htw]
      have hle2 : w * (h * maxDim / w) ≤ h * maxDim := by
        conv_rhs => rw [← hdm]
        exact Nat.le_add_right _ _
      exact lt_of_le_of_lt hle2 (Nat.lt_add_of_pos_right hw)
  · have hmax : max w h = h := max_eq_right hle
    have hth : h * maxDim / h = maxDim := Nat.mul_div_cancel_left maxDim hh
    have hdm : h * (w * maxDim / h) + w * maxDim % h = w * maxDim :=
      Nat.div_add_mod (w * maxDim) h
    have hmod : w * maxDim % h < h := Nat.mod_lt _ hh
    have htw : w * maxDim / h ≤ maxDim := by
      have h1 : w * maxDim ≤ h * maxDim := mul_le_mul_right' hle maxDim
      have h2 : w * maxDim / h ≤ h * maxDim / h := Nat.div_le_div_right h1
      rw [hth] at h2
      exact h2
    simp only [thumbDims, hmax]
    refine ⟨?_, ?_, ?_, ?_, ?_⟩
    · rw [hth]; exact max_eq_right htw
    · exact htw
    · rw [hth]
    · rw [hth]
      have hle2 : h * (w * maxDim / h) ≤ w * maxDim := by
        conv_rhs => rw [← hdm]
        exact Nat.le_add_right _ _
      exact lt_of_le_of_lt hle2 (Nat.lt_add_of_pos_right hh)
    · rw [hth]
      calc w * maxDim = h * (w * maxDim / h) + w * maxDim % h := hdm.symm
        _ < h * (w * maxDim / h) + h := Nat.add_lt_add_left hmod _

/-- Witness for C7: a 4×3 source scaled to `maxDim = 300` gives a 300×225
thumbnail satisfying every conjunct. -/
theorem thumbnail_dims_spec_witness :
    (0 < 4 ∧ 0 < 3 ∧ 0 < 300) ∧
    (max (thumbDims 4 3 300).1 (thumbDims 4 3 300).2 = 300 ∧
     (thumbDims 4 3 300).1 ≤ 300 ∧
     (thumbDims 4 3 300).2 ≤ 300 ∧
     3 * (thumbDims 4 3 300).1 < 4 * (thumbDims 4 3 300).2 + max 4 3 ∧
     4 * (thumbDims 4 3 300).2 < 3 * (thumbDims 4 3 300).1 + max 4 3) :=
  ⟨⟨by decide, by decide, by decide⟩,
   thumbnail_dims_spec 4 3 300 (by decide) (by decide) (by decide)⟩

/-! ## C10: `getUploads` thumbnail URLs -/

/-- C10: every image in the `data` array returned by `getUploads` has its
`thumbnail_url` set to exactly
`baseURL ++ "/api/uploads/" ++ id ++ "/thumbnail?size=300"` — size fixed at
300 whatever `page` and `limit` the caller passed — with every other field
of the image and the pagination fields passed through unchanged. -/
theorem get_uploads_thumbnail_url (baseURL : String) (page limit : Nat)
    (resp : GetUploadsResponse) :
    (getUploads baseURL page limit resp).total = resp.total ∧
    (getUploads baseURL page limit resp).page = resp.page ∧
    (getUploads baseURL page limit resp).limit = resp.limit ∧
    (getUploads baseURL page limit resp).data.length = resp.data.length ∧
    ∀ i im, resp.data.get? i = some im →
      (getUploads baseURL page limit resp).data.get? i =
        some { im with
               thumbnail_url :=
                 some (baseURL ++ "/api/uploads/" ++ im.id ++ "/thumbnail?size=300") } := by
  refine ⟨rfl, rfl, rfl, by simp [getUploads], ?_⟩
  intro i im him
  rw [List.get?_eq_getElem?] at him ⊢
  simp only [getUploads]
  rw [List.getElem?_map, him]
  rfl

/-- Witness for C10: a concrete one-image response. -/
theorem get_uploads_thumbnail_url_witness :
    (getUploads "http://localhost:8000" 1 20
        ⟨[⟨"abc", "o", "f", "p", "u", none, "t", 5, none, "pending", none, none⟩],
         1, 1, 20⟩).data.get? 0 =
      some { (⟨"abc", "o", "f", "p", "u", none, "t", 5, none, "pending", none,
               none⟩ : ImageMetadata) with
             thumbnail_url :=
               some ("http://localhost:8000" ++ "/api/uploads/" ++ "abc" ++
                 "/thumbnail?size=300") } :=
  (get_uploads_thumbnail_url "http://localhost:8000" 1 20
      ⟨[⟨"abc", "o", "f", "p", "u", none, "t", 5, none, "pending", none, none⟩],
       1, 1, 20⟩).2.2.2.2 0
    ⟨"abc", "o", "f", "p", "u", none, "t", 5, none, "pending", none, none⟩ rfl

/-! ## C8: gallery deduplication -/

/-- One gallery fetch preserves distinctness of ids, provided the incoming
response page itself lists no id twice. -/
theorem galleryUpdate_nodup (prev resp : List ImageMetadata)
    (hp : (prev.map fun im => im.id).Nodup)
    (hr : (resp.map fun im => im.id).Nodup) :
    ((galleryUpdate prev resp).map fun im => im.id).Nodup := by
  simp only [galleryUpdate, List.map_append]
  rw [List.nodup_append]
  refine ⟨hp, ?_, ?_⟩
  · exact List.Nodup.sublist
      (List.Sublist.map _ (List.filter_sublist _)) hr
  · intro a ha hb
    rcases List.mem_map.mp hb with ⟨im, him, rfl⟩
    rcases List.mem_filter.mp him with ⟨-, hdec⟩
    exact (of_decide_eq_true hdec) ha

/-- Distinctness of ids holds after folding any number of fetches over any
starting gallery with distinct ids. -/
theorem galleryRun_aux (resps : List (List ImageMetadata))
    (prev : List ImageMetadata)
    (hp : (prev.map fun im => im.id).Nodup)
    (h : ∀ r ∈ resps, (r.map fun im => im.id).Nodup) :
    ((resps.foldl galleryUpdate prev).map fun im => im.id).Nodup := by
  induction resps generalizing prev with
  | nil => simpa using hp
  | cons r rs ih =>
    simp only [List.foldl_cons]
    refine ih (galleryUpdate prev r)
      (galleryUpdate_nodup prev r hp (h r (by simp))) ?_
    intro r' hr'
    exact h r' (by simp [hr'])

/-- C8 counterexample: the claim as stated fails — a single successful fetch
whose response contains two entries with the same id (the dedup filter only
checks ids already in the gallery, not ids within the incoming page) leaves
the `images` array with a duplicated id. -/
theorem gallery_dup_counterexample :
    ¬ (((galleryUpdate [] [imgDup, imgDup]).map fun im => im.id).Nodup) := by
  decide

/-- C8 (amended): provided every single fetch response contains no two
entries with the same id, after any sequence of successful fetches the
`images` array never contains two entries with the same `id`; moreover every
fetch only appends (never removes or reorders previously loaded entries),
appends only images from the response whose id is not already present, and
appends every such image. -/
theorem gallery_images_nodup (resps : List (List ImageMetadata))
    (h : ∀ r ∈ resps, (r.map fun im => im.id).Nodup) :
    ((galleryRun resps).map fun im => im.id).Nodup ∧
    (∀ prev resp, ∃ t, galleryUpdate prev resp = prev ++ t ∧
       ∀ im ∈ t, im ∈ resp ∧ ¬ im.id ∈ (prev.map fun im2 => im2.id)) ∧
    (∀ prev resp im, im ∈ resp → ¬ im.id ∈ (prev.map fun im2 => im2.id) →
       im ∈ galleryUpdate prev resp) := by
  refine ⟨galleryRun_aux resps [] (by simp) h, ?_, ?_⟩
  · intro prev resp
    refine ⟨_, rfl, ?_⟩
    intro im him
    rcases List.mem_filter.mp him with ⟨hmem, hdec⟩
    exact ⟨hmem, of_decide_eq_true hdec⟩
  · intro prev resp im him hid
    simp only [galleryUpdate, List.mem_append]
    right
    exact List.mem_filter.mpr ⟨him, decide_eq_true hid⟩

/-- Witness for C8: two fetches returning distinct single-image pages leave
a gallery with pairwise-distinct ids. -/
theorem gallery_images_nodup_witness :
    (∀ r ∈ ([[imgA], [imgB]] : List (List ImageMetadata)),
       (r.map fun im => im.id).Nodup) ∧
    ((galleryRun [[imgA], [imgB]]).map fun im => im.id).Nodup :=
  ⟨by decide, (gallery_images_nodup [[imgA], [imgB]] (by decide)).1⟩

/-! ## C1, C3, C6: the task state machine -/

/-- `overallOf` yields `completed` exactly on all-terminal outcomes with a
success. -/
theorem overallOf_completed (l : List ItemOutcome) :
    overallOf l = .completed ↔
      l.all ItemOutcome.isTerminal = true ∧ l.any ItemOutcome.isSuccess = true := by
  unfold overallOf
  by_cases h1 : l.all ItemOutcome.isTerminal = true
  · by_cases h2 : l.any ItemOutcome.isSuccess = true <;> simp [h1, h2]
  · simp [h1]

/-- `overallOf` yields `failed` exactly on all-terminal outcomes without a
success. -/
theorem overallOf_failed (l : List ItemOutcome) :
    overallOf l = .failed ↔
      l.all ItemOutcome.isTerminal = true ∧ l.any ItemOutcome.isSuccess = false := by
  unfold overallOf
  by_cases h1 : l.all ItemOutcome.isTerminal = true
  · by_cases h2 : l.any ItemOutcome.isSuccess = true <;> simp [h1, h2]
  · simp [h1]

/-- A non-terminal outcome list aggregates to `in_progress`. -/
theorem overallOf_inProgress (l : List ItemOutcome)
    (h : l.all ItemOutcome.isTerminal = false) : overallOf l = .inProgress := by
  unfold overallOf
  simp [h]

/-- The aggregate of an outcome list is never `queued`. -/
theorem one_le_rank_overallOf (l : List ItemOutcome) :
    1 ≤ statusRank (overallOf l) := by
  unfold overallOf
  by_cases h1 : l.all ItemOutcome.isTerminal = true
  · by_cases h2 : l.any ItemOutcome.isSuccess = true <;> simp [h1, h2, statusRank]
  · simp [h1, statusRank]

/-- The aggregate-status invariant holds for a freshly submitted non-empty
task. -/
theorem taskInv_init (n : Nat) (hn : 0 < n) : TaskInv (initTask n) := by
  obtain ⟨m, rfl⟩ : ∃ m, n = m + 1 := ⟨n - 1, by omega⟩
  refine ⟨?_, ?_, ?_⟩
  · simp [initTask, List.replicate_succ, ItemOutcome.isTerminal]
  · simp [initTask, List.replicate_succ, ItemOutcome.isTerminal]
  · intro hq
    simp [initTask] at hq

/-- One transition preserves the aggregate-status invariant. -/
theorem taskInv_step {s t : TaskState} (hst : TaskStep s t) (hs : TaskInv s) :
    TaskInv t := by
  cases hst with
  | start hq => ?_
  | finish i r now hsp hi hr => ?_
  · refine ⟨?_, ?_, ?_⟩
    · constructor
      · intro h
        exact absurd h (by simp)
      · intro hrhs
        have := hs.1.mpr hrhs
        rw [hq] at this
        exact absurd this (by simp)
    · constructor
      · intro h
        exact absurd h (by simp)
      · intro hrhs
        have := hs.2.1.mpr hrhs
        rw [hq] at this
        exact absurd this (by simp)
    · intro _ _
      rfl
  · refine ⟨?_, ?_, ?_⟩
    · simpa [finishItem] using overallOf_completed (s.items.set i r)
    · simpa [finishItem] using overallOf_failed (s.items.set i r)
    · intro _ hall
      simp only [finishItem] at hall ⊢
      exact overallOf_inProgress _ hall

/-- The aggregate-status invariant is preserved along any execution. -/
theorem taskInv_reach {s t : TaskState} (h : TaskReach s t) (hs : TaskInv s) :
    TaskInv t := by
  induction h with
  | refl => exact hs
  | tail h1 h2 ih => exact taskInv_step h2 ih

/-- C1: at every observation point of a caption task over a non-empty batch,
the overall status is `completed` iff every per-item outcome is terminal and
at least one item succeeded, `failed` iff every per-item outcome is terminal
and no item succeeded, and a started task with a non-terminal item is
`in_progress` — so a batch with some successes and some errors ends
`completed`, never `failed`. -/
theorem caption_task_status_invariant (n : Nat) (s : TaskState)
    (hn : 0 < n) (h : TaskReach (initTask n) s) :
    (s.status = .completed ↔
       s.items.all ItemOutcome.isTerminal = true ∧
       s.items.any ItemOutcome.isSuccess = true) ∧
    (s.status = .failed ↔
       s.items.all ItemOutcome.isTerminal = true ∧
       s.items.any ItemOutcome.isSuccess = false) ∧
    (s.status ≠ .queued → s.items.all ItemOutcome.isTerminal = false →
       s.status = .inProgress) :=
  taskInv_reach h (taskInv_init n hn)

/-- Witness for C1: a 3-item batch finishing with two successes and one
error reaches `completed` (never `failed`). -/
theorem caption_task_status_invariant_witness :
    (finishItem (finishItem (finishItem
        { initTask 3 with status := TaskStatus.inProgress }
        0 (ItemOutcome.success "a") 10)
        1 (ItemOutcome.error "model error") 11)
        2 (ItemOutcome.success "c") 12).status = TaskStatus.completed := by
  have h1 : TaskStep (initTask 3)
      { initTask 3 with status := TaskStatus.inProgress } :=
    TaskStep.start _ (by decide)
  have h2 : TaskStep { initTask 3 with status := TaskStatus.inProgress }
      (finishItem { initTask 3 with status := TaskStatus.inProgress }
        0 (ItemOutcome.success "a") 10) :=
    TaskStep.finish _ 0 (ItemOutcome.success "a") 10
      (by decide) (by decide) (by decide)
  have h3 : TaskStep (finishItem { initTask 3 with status := TaskStatus.inProgress }
        0 (ItemOutcome.success "a") 10)
      (finishItem (finishItem { initTask 3 with status := TaskStatus.inProgress }
        0 (ItemOutcome.success "a") 10) 1 (ItemOutcome.error "model error") 11) :=
    TaskStep.finish _ 1 (ItemOutcome.error "model error") 11
      (by decide) (by decide) (by decide)
  have h4 : TaskStep (finishItem (finishItem
        { initTask 3 with status := TaskStatus.inProgress }
        0 (ItemOutcome.success "a") 10) 1 (ItemOutcome.error "model error") 11)
      (finishItem (finishItem (finishItem
        { initTask 3 with status := TaskStatus.inProgress }
        0 (ItemOutcome.success "a") 10) 1 (ItemOutcome.error "model error") 11)
        2 (ItemOutcome.success "c") 12) :=
    TaskStep.finish _ 2 (ItemOutcome.success "c") 12
      (by decide) (by decide) (by decide)
  have hr : TaskReach (initTask 3)
      (finishItem (finishItem (finishItem
        { initTask 3 with status := TaskStatus.inProgress }
        0 (ItemOutcome.success "a") 10) 1 (ItemOutcome.error "model error") 11)
        2 (ItemOutcome.success "c") 12) :=
    TaskReach.tail (TaskReach.tail (TaskReach.tail
      (TaskReach.tail (TaskReach.refl _) h1) h2) h3) h4
  exact (caption_task_status_invariant 3 _ (by decide) hr).1.mpr (by decide)

/-- No transition leaves a state whose overall status is terminal. -/
theorem step_src_not_terminal {s t : TaskState} (h : TaskStep s t) :
    s.status.isTerminal = false := by
  cases h with
  | start hq => ?_
  | finish i r now hsp hi hr => ?_
  · rw [hq]; rfl
  · rw [hsp]; rfl

/-- One transition never decreases the status rank. -/
theorem step_rank_mono {s t : TaskState} (h : TaskStep s t) :
    statusRank s.status ≤ statusRank t.status := by
  cases h with
  | start hq => ?_
  | finish i r now hsp hi hr => ?_
  · rw [hq]; exact Nat.zero_le _
  · rw [hsp]
    simp only [finishItem]
    exact one_le_rank_overallOf _

/-- A state with terminal overall status can only reach itself. -/
theorem terminal_frozen {s t : TaskState}
    (hterm : s.status.isTerminal = true) (h : TaskReach s t) : t = s := by
  induction h with
  | refl => rfl
  | tail h1 h2 ih =>
    rw [ih] at h2
    exact Bool.noConfusion (hterm.symm.trans (step_src_not_terminal h2))

/-- C3: the overall status only moves forward along
`queued → in_progress → {completed | failed}` — its rank never decreases
along any execution, a state with terminal status is absorbing (no further
transition changes anything, so the terminal state is entered exactly once),
and every transition originates from a non-terminal status. -/
theorem task_status_monotone (s t : TaskState) (h : TaskReach s t) :
    statusRank s.status ≤ statusRank t.status ∧
    (s.status.isTerminal = true → t = s) ∧
    (∀ u v : TaskState, TaskStep u v → u.status.isTerminal = false) := by
  refine ⟨?_, fun hterm => terminal_frozen hterm h,
    fun u v huv => step_src_not_terminal huv⟩
  induction h with
  | refl => exact le_refl _
  | tail h1 h2 ih => exact le_trans ih (step_rank_mono h2)

/-- Witness for C3: starting a freshly queued 2-item task does not decrease
the status rank. -/
theorem task_status_monotone_witness :
    statusRank (initTask 2).status ≤
      statusRank ({ initTask 2 with status := TaskStatus.inProgress }).status :=
  (task_status_monotone (initTask 2)
      { initTask 2 with status := TaskStatus.inProgress }
      (TaskReach.tail (TaskReach.refl _) (TaskStep.start _ (by decide)))).1

/-- C6: once a task's overall status is terminal, every later observation of
the record sees the identical snapshot — item outcomes, status and
completion timestamp are never mutated again. -/
theorem terminal_snapshot_immutable (s t : TaskState)
    (hterm : s.status.isTerminal = true) (h : TaskReach s t) :
    t.items = s.items ∧ t.status = s.status ∧ t.completedAt = s.completedAt := by
  rw [terminal_frozen hterm h]
  exact ⟨rfl, rfl, rfl⟩

/-- Witness for C6: a completed one-item task record observed again is
unchanged. -/
theorem terminal_snapshot_immutable_witness :
    ((⟨[ItemOutcome.success "a"], TaskStatus.completed, some 5⟩ : TaskState).items
        = (⟨[ItemOutcome.success "a"], TaskStatus.completed, some 5⟩ : TaskState).items) ∧
    ((⟨[ItemOutcome.success "a"], TaskStatus.completed, some 5⟩ : TaskState).status
        = (⟨[ItemOutcome.success "a"], TaskStatus.completed, some 5⟩ : TaskState).status) ∧
    ((⟨[ItemOutcome.success "a"], TaskStatus.completed, some 5⟩ : TaskState).completedAt
        = (⟨[ItemOutcome.success "a"], TaskStatus.completed, some 5⟩ : TaskState).completedAt) :=
  terminal_snapshot_immutable _ _ (by decide) (TaskReach.refl _)

/-! ## C4: submit / status contract -/

/-- C4: `submit` fails with `EmptyBatchError` exactly on the empty batch (the
failure carries no task id, so none is issued); for every non-empty batch it
returns a fresh task id whose record exists immediately — `status` on that id
returns the freshly queued (hence non-terminal) snapshot, never
`NotFoundError`. -/
theorem submit_empty_batch_spec (batch : List ImageId) (reg : Registry) :
    (submit batch reg = .error .emptyBatch ↔ batch = []) ∧
    (∀ tid reg', submit batch reg = .ok (tid, reg') →
       tid = reg.tasks.length ∧
       statusQuery reg' tid = .ok (initTask batch.length) ∧
       (initTask batch.length).status = .queued ∧
       (initTask batch.length).status.isTerminal = false) := by
  constructor
  · constructor
    · intro h
      cases batch with
      | nil => rfl
      | cons b bs => simp [submit] at h
    · intro h
      subst h
      simp [submit]
  · intro tid reg' h
    cases batch with
    | nil => simp [submit] at h
    | cons b bs =>
      simp only [submit, List.isEmpty_cons, Bool.false_eq_true, if_false] at h
      rw [Except.ok.injEq, Prod.mk.injEq] at h
      obtain ⟨rfl, rfl⟩ := h
      refine ⟨rfl, ?_, rfl, rfl⟩
      simp [statusQuery, List.get?_concat_length]

/-- Witness for C4: submitting a singleton batch to an empty registry issues
task id 0, and `status 0` immediately returns the queued snapshot. -/
theorem submit_empty_batch_spec_witness :
    submit ["img1"] ⟨[]⟩ = .ok (0, ⟨[initTask 1]⟩) ∧
    statusQuery ⟨[initTask 1]⟩ 0 = .ok (initTask 1) :=
  ⟨rfl, ((submit_empty_batch_spec ["img1"] ⟨[]⟩).2 0 ⟨[initTask 1]⟩ rfl).2.1⟩

/-! ## C5: caption client retry policy -/

/-- The retry loop always performs at least one attempt. -/
theorem captionAttempts_pos (oracle : Nat → Except CaptionError CaptionResult) :
    ∀ r k, 1 ≤ captionAttempts oracle k r := by
  intro r
  induction r with
  | zero => intro k; simp [captionAttempts]
  | succ r ih =>
    intro k
    cases ho : oracle k with
    | ok v => simp [captionAttempts, ho]
    | error e =>
      by_cases ht : e.isTransient = true
      · simp [captionAttempts, ho, ht]
      · have ht' : e.isTransient = false := by simpa using ht
        simp [captionAttempts, ho, ht']

/-- The retry loop never exceeds its attempt budget. -/
theorem captionAttempts_le (oracle : Nat → Except CaptionError CaptionResult) :
    ∀ r k, captionAttempts oracle k r ≤ r + 1 := by
  intro r
  induction r with
  | zero => intro k; simp [captionAttempts]
  | succ r ih =>
    intro k
    cases ho : oracle k with
    | ok v => simp [captionAttempts, ho]
    | error e =>
      by_cases ht : e.isTransient = true
      · have := ih (k + 1)
        simp only [captionAttempts, ho, ht, if_true]
        omega
      · have ht' : e.isTransient = false := by simpa using ht
        simp [captionAttempts, ho, ht']

/-- Every attempt that got retried (every non-final attempt) had failed with
a transient error. -/
theorem caption_retried_transient (oracle : Nat → Except CaptionError CaptionResult) :
    ∀ r k j, j + 1 < captionAttempts oracle k r →
      ∃ e, oracle (k + j) = .error e ∧ e.isTransient = true := by
  intro r
  induction r with
  | zero => intro k j hj; simp [captionAttempts] at hj
  | succ r ih =>
    intro k j hj
    cases ho : oracle k with
    | ok v => simp [captionAttempts, ho] at hj
    | error e =>
      by_cases ht : e.isTransient = true
      · have hA : captionAttempts oracle k (r + 1) =
            1 + captionAttempts oracle (k + 1) r := by
          simp [captionAttempts, ho, ht]
        rw [hA] at hj
        cases j with
        | zero => exact ⟨e, by simpa using ho, ht⟩
        | succ j' =>
          have hidx : k + (j' + 1) = (k + 1) + j' := by omega
          rw [hidx]
          exact ih (k + 1) j' (by omega)
      · have ht' : e.isTransient = false := by simpa using ht
        simp [captionAttempts, ho, ht'] at hj

/-- If the loop stopped before exhausting its budget, the final attempt
either succeeded or failed non-transiently — a non-transient failure is
never retried. -/
theorem caption_early_stop (oracle : Nat → Except CaptionError CaptionResult) :
    ∀ r k, captionAttempts oracle k r < r + 1 →
      (∃ v, oracle (k + (captionAttempts oracle k r - 1)) = .ok v) ∨
      (∃ e, oracle (k + (captionAttempts oracle k r - 1)) = .error e ∧
         e.isTransient = false) := by
  intro r
  induction r with
  | zero => intro k h; simp [captionAttempts] at h
  | succ r ih =>
    intro k h
    cases ho : oracle k with
    | ok v =>
      have hA : captionAttempts oracle k (r + 1) = 1 := by simp [captionAttempts, ho]
      rw [hA]
      exact Or.inl ⟨v, by simpa using ho⟩
    | error e =>
      by_cases ht : e.isTransient = true
      · have hA : captionAttempts oracle k (r + 1) =
            1 + captionAttempts oracle (k + 1) r := by
          simp [captionAttempts, ho, ht]
        rw [hA] at h ⊢
        have h1 := captionAttempts_pos oracle r (k + 1)
        have hidx : k + (1 + captionAttempts oracle (k + 1) r - 1) =
            (k + 1) + (captionAttempts oracle (k + 1) r - 1) := by omega
        rw [hidx]
        exact ih (k + 1) (by omega)
      · have ht' : e.isTransient = false := by simpa using ht
        have hA : captionAttempts oracle k (r + 1) = 1 := by
          simp [captionAttempts, ho, ht']
        rw [hA]
        exact Or.inr ⟨e, by simpa using ho, ht'⟩

/-- If the final attempt succeeded, the retry loop returns that success. -/
theorem captionRetry_result_ok (oracle : Nat → Except CaptionError CaptionResult) :
    ∀ r k v, oracle (k + (captionAttempts oracle k r - 1)) = .ok v →
      captionRetry oracle k r = .ok v := by
  intro r
  induction r with
  | zero =>
    intro k v hv
    have hA : captionAttempts oracle k 0 = 1 := by simp [captionAttempts]
    rw [hA] at hv
    have hv' : oracle k = .ok v := by simpa using hv
    simp [captionRetry, hv']
  | succ r ih =>
    intro k v hv
    cases ho : oracle k with
    | ok w =>
      have hA : captionAttempts oracle k (r + 1) = 1 := by simp [captionAttempts, ho]
      rw [hA] at hv
      have hv' : oracle k = .ok v := by simpa using hv
      have hw : w = v := by
        have := ho.symm.trans hv'
        injection this
      subst hw
      simp [captionRetry, ho]
    | error e =>
      by_cases ht : e.isTransient = true
      · have h1 := captionAttempts_pos oracle r (k + 1)
        have hA : captionAttempts oracle k (r + 1) =
            1 + captionAttempts oracle (k + 1) r := by
          simp [captionAttempts, ho, ht]
        rw [hA] at hv
        have hidx : k + (1 + captionAttempts oracle (k + 1) r - 1) =
            (k + 1) + (captionAttempts oracle (k + 1) r - 1) := by omega
        rw [hidx] at hv
        have hrec := ih (k + 1) v hv
        simp [captionRetry, ho, ht, hrec]
      · have ht' : e.isTransient = false := by simpa using ht
        have hA : captionAttempts oracle k (r + 1) = 1 := by
          simp [captionAttempts, ho, ht']
        rw [hA] at hv
        have hv' : oracle k = .ok v := by simpa using hv
        exact Except.noConfusion (ho.symm.trans hv')

/-- If the final attempt failed, the retry loop surfaces exactly that
failure. -/
theorem captionRetry_result_error (oracle : Nat → Except CaptionError CaptionResult) :
    ∀ r k e, oracle (k + (captionAttempts oracle k r - 1)) = .error e →
      captionRetry oracle k r = .error e := by
  intro r
  induction r with
  | zero =>
    intro k e he
    have hA : captionAttempts oracle k 0 = 1 := by simp [captionAttempts]
    rw [hA] at he
    have he' : oracle k = .error e := by simpa using he
    simp [captionRetry, he']
  | succ r ih =>
    intro k e he
    cases ho : oracle k with
    | ok w =>
      have hA : captionAttempts oracle k (r + 1) = 1 := by simp [captionAttempts, ho]
      rw [hA] at he
      have he' : oracle k = .error e := by simpa using he
      exact Except.noConfusion (ho.symm.trans he')
    | error e2 =>
      by_cases ht : e2.isTransient = true
      · have h1 := captionAttempts_pos oracle r (k + 1)
        have hA : captionAttempts oracle k (r + 1) =
            1 + captionAttempts oracle (k + 1) r := by
          simp [captionAttempts, ho, ht]
        rw [hA] at he
        have hidx : k + (1 + captionAttempts oracle (k + 1) r - 1) =
            (k + 1) + (captionAttempts oracle (k + 1) r - 1) := by omega
        rw [hidx] at he
        have hrec := ih (k + 1) e he
        simp [captionRetry, ho, ht, hrec]
      · have ht' : e2.isTransient = false := by simpa using ht
        have hA : captionAttempts oracle k (r + 1) = 1 := by
          simp [captionAttempts, ho, ht']
        rw [hA] at he
        have he' : oracle k = .error e := by simpa using he
        have he2 : e2 = e := by
          have := ho.symm.trans he'
          injection this
        subst he2
        simp [captionRetry, ho, ht']

/-- C5: with a total attempt budget `B ≥ 1`, the caption client performs
between 1 and `B` attempts; every attempt that was retried had failed with
`Unreachable` or `Timeout` (a transient kind); stopping before the budget is
exhausted happens only on success or on a non-transient
(`InvalidResponse`/`ModelError`) failure, which is never retried; and when
the final attempt fails — budget exhausted or non-transient — the failure is
surfaced as the return value and becomes a per-item `error` outcome, never a
non-terminal or fatal condition. -/
theorem caption_retry_policy (B : Nat)
    (oracle : Nat → Except CaptionError CaptionResult) (hB : 1 ≤ B) :
    (1 ≤ captionAttempts oracle 0 (B - 1) ∧ captionAttempts oracle 0 (B - 1) ≤ B) ∧
    (∀ j, j + 1 < captionAttempts oracle 0 (B - 1) →
       ∃ e, oracle j = .error e ∧ e.isTransient = true) ∧
    (captionAttempts oracle 0 (B - 1) < B →
       (∃ v, oracle (captionAttempts oracle 0 (B - 1) - 1) = .ok v) ∨
       (∃ e, oracle (captionAttempts oracle 0 (B - 1) - 1) = .error e ∧
          e.isTransient = false)) ∧
    (∀ e, oracle (captionAttempts oracle 0 (B - 1) - 1) = .error e →
       caption B oracle = .error e ∧
       processItem (caption B oracle) = .error (captionErrMsg e)) ∧
    (processItem (caption B oracle)).isTerminal = true := by
  refine ⟨⟨captionAttempts_pos oracle (B - 1) 0, ?_⟩, ?_, ?_, ?_, ?_⟩
  · have := captionAttempts_le oracle (B - 1) 0
    omega
  · intro j hj
    have := caption_retried_transient oracle (B - 1) 0 j hj
    simpa using this
  · intro h
    have := caption_early_stop oracle (B - 1) 0 (by omega)
    simpa using this
  · intro e he
    have he' : oracle (0 + (captionAttempts oracle 0 (B - 1) - 1)) = .error e := by
      simpa using he
    have hres : captionRetry oracle 0 (B - 1) = .error e :=
      captionRetry_result_error oracle (B - 1) 0 e he'
    refine ⟨by simpa [caption] using hres, ?_⟩
    simp [caption, processItem, hres]
  · cases hc : caption B oracle with
    | ok v => simp [processItem, ItemOutcome.isTerminal]
    | error e => simp [processItem, ItemOutcome.isTerminal]

/-- Witness for C5: a budget-3 client whose first attempt times out stays
within its budget (it uses 2 attempts). -/
theorem caption_retry_policy_witness :
    1 ≤ 3 ∧
    (1 ≤ captionAttempts oracleTransientOnce 0 (3 - 1) ∧
     captionAttempts oracleTransientOnce 0 (3 - 1) ≤ 3) :=
  ⟨by decide, (caption_retry_policy 3 oracleTransientOnce (by decide)).1⟩

/-! ## C2: thumbnail cache single-flight -/

/-- Positional lookup bound extracted from a successful lookup. -/
theorem list_get?_lt {α : Type} {l : List α} {i : Nat} {c : α}
    (h : l.get? i = some c) : i < l.length := by
  rw [List.get?_eq_getElem?] at h
  exact (List.getElem?_eq_some.mp h).1

/-- Lookup at the updated position. -/
theorem list_get?_set_self {α : Type} {l : List α} {i : Nat} (c : α)
    (h : i < l.length) : (l.set i c).get? i = some c := by
  rw [List.get?_eq_getElem?]
  exact List.getElem?_set_eq_of_lt c h

/-- Lookup away from the updated position. -/
theorem list_get?_set_ne {α : Type} {l : List α} {i j : Nat} (c : α)
    (h : i ≠ j) : (l.set i c).get? j = l.get? j := by
  rw [List.get?_eq_getElem?, List.get?_eq_getElem?]
  exact List.getElem?_set_ne h

/-- Every caller of a freshly uncached key is in phase `start`. -/
theorem replicate_start_get? {K i : Nat} {c : CallerPhase}
    (h : (List.replicate K CallerPhase.start).get? i = some c) :
    c = .start := by
  rw [List.get?_eq_getElem?, List.getElem?_replicate] at h
  split at h
  · injection h with h
    exact h.symm
  · exact Option.noConfusion h

/-- The single-flight invariant holds initially. -/
theorem cacheInv_init (compute : List Nat) (K : Nat) :
    CacheInv compute (initCache K) := by
  refine ⟨?_, ?_, ?_, ?_, ?_⟩
  · intro b hb
    exact absurd hb (by simp [initCache])
  · intro _
    rfl
  · intro i hgen
    exact absurd (replicate_start_get? hgen) (by simp)
  · intro i j hgi hgj
    exact absurd (replicate_start_get? hgi) (by simp)
  · intro i b hdone
    exact absurd (replicate_start_get? hdone) (by simp)

/-- One interleaved cache step preserves the single-flight invariant. -/
theorem cacheInv_step {compute : List Nat} {s t : CacheSys}
    (hst : CacheStep compute s t) (hs : CacheInv compute s) :
    CacheInv compute t := by
  obtain ⟨inv1, inv2, inv3, inv4, inv5⟩ := hs
  cases hst with
  | hit i b hc he =>
    obtain ⟨rfl, hg⟩ := inv1 b he
    have hlen : i < s.callers.length := list_get?_lt hc
    refine ⟨?_, ?_, ?_, ?_, ?_⟩
    · intro b' hb'
      exact inv1 b' hb'
    · exact inv2
    · intro i' hgen
      by_cases hii : i = i'
      · subst hii
        rw [list_get?_set_self _ hlen] at hgen
        exact absurd hgen (by simp)
      · rw [list_get?_set_ne _ hii] at hgen
        exact inv3 i' hgen
    · intro i' j' hgi hgj
      by_cases hii : i = i'
      · subst hii
        rw [list_get?_set_self _ hlen] at hgi
        exact absurd hgi (by simp)
      · by_cases hjj : i = j'
        · subst hjj
          rw [list_get?_set_self _ hlen] at hgj
          exact absurd hgj (by simp)
        · rw [list_get?_set_ne _ hii] at hgi
          rw [list_get?_set_ne _ hjj] at hgj
          exact inv4 i' j' hgi hgj
    · intro i' b' hdone
      by_cases hii : i = i'
      · subst hii
        rw [list_get?_set_self _ hlen] at hdone
        have hd : CallerPhase.done b = CallerPhase.done b' := by injection hdone
        injection hd with hb
        exact ⟨hb.symm, he⟩
      · rw [list_get?_set_ne _ hii] at hdone
        exact inv5 i' b' hdone
  | acquire i hc he hl =>
    have hlen : i < s.callers.length := list_get?_lt hc
    have hnog : ∀ m, s.callers.get? m = some .generating → False := by
      intro m hm
      have := (inv3 m hm).1
      rw [hl] at this
      exact Bool.noConfusion this
    refine ⟨?_, ?_, ?_, ?_, ?_⟩
    · intro b' hb'
      exact absurd (he.symm.trans hb') (by simp)
    · intro _
      exact inv2 he
    · intro i' _
      exact ⟨rfl, he⟩
    · intro i' j' hgi hgj
      by_cases hii : i = i'
      · by_cases hjj : i = j'
        · omega
        · rw [list_get?_set_ne _ hjj] at hgj
          exact (hnog j' hgj).elim
      · rw [list_get?_set_ne _ hii] at hgi
        exact (hnog i' hgi).elim
    · intro i' b' hdone
      by_cases hii : i = i'
      · subst hii
        rw [list_get?_set_self _ hlen] at hdone
        exact absurd hdone (by simp)
      · rw [list_get?_set_ne _ hii] at hdone
        have h5 := inv5 i' b' hdone
        exact absurd (he.symm.trans h5.2) (by simp)
  | generate i hc =>
    have hlen : i < s.callers.length := list_get?_lt hc
    obtain ⟨hlock, hent⟩ := inv3 i hc
    have hg0 : s.genCount = 0 := inv2 hent
    refine ⟨?_, ?_, ?_, ?_, ?_⟩
    · intro b' hb'
      have hb : compute = b' := by injection hb'
      refine ⟨hb.symm, ?_⟩
      rw [hg0]
    · intro hnone
      exact absurd hnone (by simp)
    · intro i' hgen
      by_cases hii : i = i'
      · subst hii
        rw [list_get?_set_self _ hlen] at hgen
        exact absurd hgen (by simp)
      · rw [list_get?_set_ne _ hii] at hgen
        exact absurd (inv4 i' i hgen hc).symm hii
    · intro i' j' hgi hgj
      by_cases hii : i = i'
      · subst hii
        rw [list_get?_set_self _ hlen] at hgi
        exact absurd hgi (by simp)
      · rw [list_get?_set_ne _ hii] at hgi
        exact absurd (inv4 i' i hgi hc).symm hii
    · intro i' b' hdone
      by_cases hii : i = i'
      · subst hii
        rw [list_get?_set_self _ hlen] at hdone
        have hd : CallerPhase.done compute = CallerPhase.done b' := by
          injection hdone
        injection hd with hb
        exact ⟨hb.symm, rfl⟩
      · rw [list_get?_set_ne _ hii] at hdone
        have h5 := inv5 i' b' hdone
        exact absurd (hent.symm.trans h5.2) (by simp)

/-- The single-flight invariant holds in every reachable state. -/
theorem cacheInv_reach {compute : List Nat} {s t : CacheSys}
    (h : CacheReach compute s t) (hs : CacheInv compute s) :
    CacheInv compute t := by
  induction h with
  | refl => exact hs
  | tail h1 h2 ih => exact cacheInv_step h2 ih

/-- A cache step never changes the number of callers. -/
theorem cacheStep_length {compute : List Nat} {s t : CacheSys}
    (h : CacheStep compute s t) : t.callers.length = s.callers.length := by
  cases h with
  | hit i b hc he => simp
  | acquire i hc he hl => simp
  | generate i hc => simp

/-- The number of callers is constant along every execution. -/
theorem cacheReach_length {compute : List Nat} {s t : CacheSys}
    (h : CacheReach compute s t) : t.callers.length = s.callers.length := by
  induction h with
  | refl => rfl
  | tail h1 h2 ih => rw [cacheStep_length h2, ih]

/-- C2: starting from `K ≥ 1` concurrent `get` callers of a previously
uncached key, every reachable state has at most one generation in flight
(any two generating callers coincide), and once every caller has been
served, exactly one decode+resize+encode computation was performed and every
caller received the identical computed bytes. -/
theorem thumbnail_single_flight (compute : List Nat) (K : Nat) (s : CacheSys)
    (hK : 0 < K) (h : CacheReach compute (initCache K) s) :
    (∀ i j, s.callers.get? i = some .generating →
       s.callers.get? j = some .generating → i = j) ∧
    (s.callers.all CallerPhase.isDone = true →
       s.genCount = 1 ∧
       ∀ i b, s.callers.get? i = some (.done b) → b = compute) := by
  obtain ⟨inv1, inv2, inv3, inv4, inv5⟩ :=
    cacheInv_reach h (cacheInv_init compute K)
  refine ⟨inv4, ?_⟩
  intro hall
  have hlen : s.callers.length = K := by
    have := cacheReach_length h
    simpa [initCache] using this
  have hlt : 0 < s.callers.length := by omega
  obtain ⟨c, hc⟩ : ∃ c, s.callers.get? 0 = some c :=
    ⟨_, List.get?_eq_get hlt⟩
  have hcdone : c.isDone = true :=
    List.all_eq_true.mp hall c (List.get?_mem hc)
  obtain ⟨b, rfl⟩ : ∃ b, c = .done b := by
    cases c with
    | done b => exact ⟨b, rfl⟩
    | start => exact Bool.noConfusion hcdone
    | generating => exact Bool.noConfusion hcdone
  have h5 := inv5 0 b hc
  exact ⟨(inv1 compute h5.2).2, fun i b' hi => (inv5 i b' hi).1⟩

/-- Witness for C2: two concurrent callers of an uncached key — one acquires
the lock and generates, the other hits the populated entry — end with one
performed computation. -/
theorem thumbnail_single_flight_witness :
    (⟨[CallerPhase.done [7], CallerPhase.done [7]], some [7], false, 1⟩ :
        CacheSys).genCount = 1 := by
  have h1 : CacheStep [7] (initCache 2)
      (⟨[CallerPhase.generating, CallerPhase.start], none, true, 0⟩ : CacheSys) :=
    CacheStep.acquire _ 0 (by decide) (by decide) (by decide)
  have h2 : CacheStep [7]
      (⟨[CallerPhase.generating, CallerPhase.start], none, true, 0⟩ : CacheSys)
      (⟨[CallerPhase.done [7], CallerPhase.start], some [7], false, 1⟩ : CacheSys) :=
    CacheStep.generate _ 0 (by decide)
  have h3 : CacheStep [7]
      (⟨[CallerPhase.done [7], CallerPhase.start], some [7], false, 1⟩ : CacheSys)
      (⟨[CallerPhase.done [7], CallerPhase.done [7]], some [7], false, 1⟩ : CacheSys) :=
    CacheStep.hit _ 1 [7] (by decide) (by decide)
  have hr : CacheReach [7] (initCache 2)
      (⟨[CallerPhase.done [7], CallerPhase.done [7]], some [7], false, 1⟩ : CacheSys) :=
    CacheReach.tail (CacheReach.tail (CacheReach.tail (CacheReach.refl _) h1) h2) h3
  exact ((thumbnail_single_flight [7] 2 _ (by decide) hr).2 (by decide)).1

/-! ## C9: `uploadFiles` -/

/-- One loop iteration never changes the file's id. -/
theorem applyOutcome_id (r : Except String UploadResponse) (f : UploadableFile) :
    (applyOutcome r (markUploading f)).id = f.id := by
  cases r with
  | error msg => rfl
  | ok resp =>
    cases hd : resp.data with
    | none => simp [applyOutcome, markUploading, hd]
    | some l =>
      cases l with
      | nil => simp [applyOutcome, markUploading, hd]
      | cons info tl => simp [applyOutcome, markUploading, hd]

/-- One loop iteration leaves the file `success` or `error`. -/
theorem applyOutcome_status (r : Except String UploadResponse) (f : UploadableFile) :
    (applyOutcome r (markUploading f)).status = .success ∨
    (applyOutcome r (markUploading f)).status = .error := by
  cases r with
  | error msg => exact Or.inr rfl
  | ok resp =>
    cases hd : resp.data with
    | none => exact Or.inr (by simp [applyOutcome, markUploading, hd])
    | some l =>
      cases l with
      | nil => exact Or.inr (by simp [applyOutcome, markUploading, hd])
      | cons info tl => exact Or.inl (by simp [applyOutcome, markUploading, hd])

/-- In-place update at the position between a prefix and a suffix. -/
theorem modifyAt_append {α : Type} (pre : List α) (a : α) (post : List α)
    (g : α → α) :
    modifyAt (pre ++ a :: post) pre.length g = pre ++ g a :: post := by
  induction pre with
  | nil => rfl
  | cons p ps ih => simp [modifyAt, ih]

/-- With pairwise-distinct ids, `findIndex` locates exactly the occurrence of
the sought file. -/
theorem findIdxById_append (pre : List UploadableFile) (f : UploadableFile)
    (post : List UploadableFile)
    (hnodup : ((pre ++ f :: post).map fun x => x.id).Nodup) :
    findIdxById f.id (pre ++ f :: post) = some pre.length := by
  induction pre with
  | nil => simp [findIdxById]
  | cons p ps ih =>
    simp only [List.cons_append, List.map_cons, List.nodup_cons] at hnodup
    obtain ⟨hninmem, hnodup'⟩ := hnodup
    have hmem : f.id ∈ ((ps ++ f :: post).map fun x => x.id) := by simp
    have hne : p.id ≠ f.id := fun he => hninmem (he ▸ hmem)
    simp [findIdxById, hne, ih hnodup']

/-- Without pending files the positional recursion is the identity. -/
theorem uploadSpecFun_no_pending (oracle : Nat → Except String UploadResponse) :
    ∀ (files : List UploadableFile) (k : Nat),
      (∀ f ∈ files, f.status ≠ .pending) →
      uploadSpecFun oracle k files = files := by
  intro files
  induction files with
  | nil => intro k _; rfl
  | cons f fs ih =>
    intro k hnp
    have hf : f.status ≠ .pending := hnp f (by simp)
    simp only [uploadSpecFun, if_neg hf]
    rw [ih k (fun x hx => hnp x (by simp [hx]))]

/-- The positional recursion preserves length. -/
theorem uploadSpecFun_length (oracle : Nat → Except String UploadResponse) :
    ∀ (files : List UploadableFile) (k : Nat),
      (uploadSpecFun oracle k files).length = files.length := by
  intro files
  induction files with
  | nil => intro k; rfl
  | cons f fs ih =>
    intro k
    by_cases hp : f.status = .pending
    · simp [uploadSpecFun, hp, ih]
    · simp [uploadSpecFun, hp, ih]

/-- The upload loop over the pending sublist equals the positional recursion
over the suffix, for any already-processed prefix free of pending files,
provided ids are pairwise distinct. -/
theorem uploadLoop_spec (oracle : Nat → Except String UploadResponse) :
    ∀ (post pre : List UploadableFile) (k : Nat),
      ((pre ++ post).map fun f => f.id).Nodup →
      (∀ f ∈ pre, f.status ≠ .pending) →
      uploadLoop oracle k (post.filter fun f => decide (f.status = .pending))
          (pre ++ post) =
        pre ++ uploadSpecFun oracle k post := by
  intro post
  induction post with
  | nil =>
    intro pre k hnd hpre
    simp [uploadLoop, uploadSpecFun]
  | cons f fs ih =>
    intro pre k hnd hpre
    by_cases hp : f.status = .pending
    · have hdec : decide (f.status = .pending) = true := decide_eq_true hp
      have hfil : (f :: fs).filter (fun f => decide (f.status = .pending)) =
          f :: fs.filter (fun f => decide (f.status = .pending)) := by
        simp [List.filter_cons, hdec]
      rw [hfil]
      have hfind : findIdxById f.id (pre ++ f :: fs) = some pre.length :=
        findIdxById_append pre f fs hnd
      rw [uploadLoop, hfind]
      dsimp only
      simp only [modifyAt_append]
      have hg := applyOutcome_id (oracle k) f
      have hshape : pre ++ applyOutcome (oracle k) (markUploading f) :: fs =
          (pre ++ [applyOutcome (oracle k) (markUploading f)]) ++ fs := by
        simp
      rw [hshape]
      have hnd' : (((pre ++ [applyOutcome (oracle k) (markUploading f)]) ++ fs).map
          fun x => x.id).Nodup := by
        have hmapeq : (((pre ++ [applyOutcome (oracle k) (markUploading f)]) ++ fs).map
            fun x => x.id) = ((pre ++ f :: fs).map fun x => x.id) := by
          simp [hg]
        rw [hmapeq]
        exact hnd
      have hpre' : ∀ x ∈ pre ++ [applyOutcome (oracle k) (markUploading f)],
          x.status ≠ .pending := by
        intro x hx
        rcases List.mem_append.mp hx with hx1 | hx2
        · exact hpre x hx1
        · have hxeq : x = applyOutcome (oracle k) (markUploading f) := by
            simpa using hx2
          subst hxeq
          rcases applyOutcome_status (oracle k) f with hst | hst <;> rw [hst] <;> simp
      rw [ih (pre ++ [applyOutcome (oracle k) (markUploading f)]) (k + 1) hnd' hpre']
      simp [uploadSpecFun, hp]
    · have hdec : decide (f.status = .pending) = false := decide_eq_false hp
      have hfil : (f :: fs).filter (fun f => decide (f.status = .pending)) =
          fs.filter (fun f => decide (f.status = .pending)) := by
        simp [List.filter_cons, hdec]
      rw [hfil]
      have hshape : pre ++ f :: fs = (pre ++ [f]) ++ fs := by simp
      rw [hshape]
      have hnd' : (((pre ++ [f]) ++ fs).map fun x => x.id).Nodup := by
        simpa using hnd
      have hpre' : ∀ x ∈ pre ++ [f], x.status ≠ .pending := by
        intro x hx
        rcases List.mem_append.mp hx with hx1 | hx2
        · exact hpre x hx1
        · have hxeq : x = f := by simpa using hx2
          subst hxeq
          exact hp
      rw [ih (pre ++ [f]) k hnd' hpre']
      simp [uploadSpecFun, hp]

/-- Positional description of the recursion: the file at position `i` is
transformed by the outcome of the call that serves it (numbered by the
pending files before it) when pending, untouched otherwise. -/
theorem uploadSpecFun_get? (oracle : Nat → Except String UploadResponse) :
    ∀ (files : List UploadableFile) (k i : Nat) (f : UploadableFile),
      files.get? i = some f →
      (uploadSpecFun oracle k files).get? i =
        some (if f.status = .pending
              then applyOutcome (oracle (k + pendingBefore files i)) (markUploading f)
              else f) := by
  intro files
  induction files with
  | nil => intro k i f h; exact absurd h (by simp)
  | cons g gs ih =>
    intro k i f h
    cases i with
    | zero =>
      have hf : g = f := by simpa using h
      subst hf
      by_cases hp : g.status = .pending
      · simp [uploadSpecFun, hp, pendingBefore]
      · simp [uploadSpecFun, hp, pendingBefore]
    | succ i' =>
      have h' : gs.get? i' = some f := by simpa using h
      by_cases hp : g.status = .pending
      · have hpb : pendingBefore (g :: gs) (i' + 1) = pendingBefore gs i' + 1 := by
          simp [pendingBefore, List.take_succ_cons, List.filter_cons, hp]
        have hrec := ih (k + 1) i' f h'
        have hk : k + pendingBefore (g :: gs) (i' + 1) =
            (k + 1) + pendingBefore gs i' := by
          rw [hpb]; omega
        rw [hk]
        simpa [uploadSpecFun, hp] using hrec
      · have hpb : pendingBefore (g :: gs) (i' + 1) = pendingBefore gs i' := by
          simp [pendingBefore, List.take_succ_cons, List.filter_cons, hp]
        have hrec := ih k i' f h'
        rw [hpb]
        simpa [uploadSpecFun, hp] using hrec

/-- On id-distinct inputs `uploadFiles` is exactly the positional
recursion. -/
theorem uploadFiles_eq_spec (oracle : Nat → Except String UploadResponse)
    (files : List UploadableFile)
    (hnd : (files.map fun f => f.id).Nodup) :
    uploadFiles oracle files = uploadSpecFun oracle 0 files := by
  by_cases hp : (files.filter fun f => decide (f.status = .pending)).length = 0
  · rw [uploadFiles]
    simp only [if_pos hp]
    have hnone : ∀ f ∈ files, f.status ≠ .pending := by
      intro f hf hpend
      have hmem : f ∈ files.filter (fun f => decide (f.status = .pending)) :=
        List.mem_filter.mpr ⟨hf, decide_eq_true hpend⟩
      rw [List.length_eq_zero] at hp
      rw [hp] at hmem
      exact absurd hmem (by simp)
    exact (uploadSpecFun_no_pending oracle files 0 hnone).symm
  · rw [uploadFiles]
    simp only [if_neg hp]
    have := uploadLoop_spec oracle files [] 0 (by simpa using hnd) (by simp)
    simpa using this

/-- C9 counterexample: the claim as stated fails — on an input containing a
file already in status `uploading` (returned unchanged, still `uploading`)
and two pending files sharing an id (`findIndex` resolves both to the first
occurrence, so the second stays `pending`), the returned list still contains
a `pending` and an `uploading` file. -/
theorem upload_files_counterexample :
    (uploadFiles oracleErr [fileU, fileA, fileB]).any
        (fun f => decide (f.status = FileStatus.pending)) = true ∧
    (uploadFiles oracleErr [fileU, fileA, fileB]).any
        (fun f => decide (f.status = FileStatus.uploading)) = true :=
  ⟨by decide, by decide⟩

/-- C9 (amended): provided the input files' ids are pairwise distinct,
`uploadFiles` returns a list of the same length and order in which every
file whose status was not `pending` is returned unchanged, and every file
whose status was `pending` is returned with status `success` (progress 100,
`uploadedPath` from the first element of the response's `data`) or status
`error` (progress 0, message set) according to its upload call's outcome; a
response whose `data` is missing, not an array, or empty is an error for
that file; and no file that was `pending` is left `pending` or
`uploading`. -/
theorem upload_files_amended (oracle : Nat → Except String UploadResponse)
    (files : List UploadableFile)
    (hnd : (files.map fun f => f.id).Nodup) :
    (uploadFiles oracle files).length = files.length ∧
    ∀ i f, files.get? i = some f →
      ∃ g, (uploadFiles oracle files).get? i = some g ∧
        (f.status ≠ .pending → g = f) ∧
        (f.status = .pending →
          ((∃ msg, oracle (pendingBefore files i) = .error msg ∧
              g = { f with status := .error, progress := 0, error := some msg }) ∨
           (∃ resp info tl, oracle (pendingBefore files i) = .ok resp ∧
              resp.data = some (info :: tl) ∧
              g = { f with status := .success, progress := 100,
                           uploadedPath := some info.preview_url }) ∨
           (∃ resp, oracle (pendingBefore files i) = .ok resp ∧
              (resp.data = none ∨ resp.data = some []) ∧
              g = { f with status := .error, progress := 0,
                           error := some "Invalid response from upload service" }))) ∧
        (f.status = .pending → g.status ≠ .pending ∧ g.status ≠ .uploading) := by
  rw [uploadFiles_eq_spec oracle files hnd]
  refine ⟨uploadSpecFun_length oracle files 0, ?_⟩
  intro i f hf
  have hg := uploadSpecFun_get? oracle files 0 i f hf
  simp only [Nat.zero_add] at hg
  by_cases hp : f.status = .pending
  · rw [if_pos hp] at hg
    refine ⟨_, hg, fun hnp => absurd hp hnp, ?_, ?_⟩
    · intro _
      cases ho : oracle (pendingBefore files i) with
      | error msg =>
        exact Or.inl ⟨msg, rfl, rfl⟩
      | ok resp =>
        cases hd : resp.data with
        | none =>
          refine Or.inr (Or.inr ⟨resp, rfl, Or.inl hd, ?_⟩)
          simp [applyOutcome, markUploading, hd]
        | some l =>
          cases l with
          | nil =>
            refine Or.inr (Or.inr ⟨resp, rfl, Or.inr hd, ?_⟩)
            simp [applyOutcome, markUploading, hd]
          | cons info tl =>
            refine Or.inr (Or.inl ⟨resp, info, tl, rfl, hd, ?_⟩)
            simp [applyOutcome, markUploading, hd]
    · intro _
      rcases applyOutcome_status (oracle (pendingBefore files i)) f with hst | hst
      · exact ⟨by rw [hst]; simp, by rw [hst]; simp⟩
      · exact ⟨by rw [hst]; simp, by rw [hst]; simp⟩
  · rw [if_neg hp] at hg
    exact ⟨f, hg, fun _ => rfl,
      fun hpend => absurd hpend hp, fun hpend => absurd hpend hp⟩

/-- Witness for C9: a single pending file with a successful upload — the
hypothesis and the length conclusion at a concrete input. -/
theorem upload_files_amended_witness :
    (([fileW].map fun f => f.id).Nodup) ∧
    (uploadFiles oracleOkW [fileW]).length = [fileW].length :=
  ⟨by decide, (upload_files_amended oracleOkW [fileW] (by decide)).1⟩

end Clustr
